import Mathlib

/-!
Verification development for the RAML Smali malware-analysis pipeline.

The Python sources are shallowly embedded here:
* text is `List Char` (named `Str`), so that the Python string operations
  (`split`, `strip`, `startswith`, slicing) become executable list functions;
* floating-point scores are embedded as rationals `ℚ` (all score arithmetic
  in the claims is exact decimal arithmetic);
* calls to the external text-generation capability are oracles of type
  `Except Str Str`: `.error e` is a call that raised after the capability's
  own retries, `.ok r` is the response text;
* logging is modelled by returning the logged messages alongside results.

Embedded modules:
* `src/services/raml/smali_parser.py`  (cleaning, method-end search)
* `src/services/raml/retrieval_engine.py` (two-stage retrieval, response parsing)
* `src/services/raml/report_generator.py` and `src/services/raml/main.py`
  (orchestration and report assembly)
-/

namespace RAML

/-- Text is modelled as a list of characters. -/
abbrev Str := List Char

/-- Python `str` whitespace test, restricted to the ASCII whitespace
characters (`' '`, `\t`, `\n`, `\r`, `\v`, `\f`); the sources never feed
non-ASCII whitespace to `strip`. -/
def pyIsSpace (c : Char) : Bool :=
  c = ' ' || c = '\t' || c = '\n' || c = '\r' || c = Char.ofNat 11 || c = Char.ofNat 12

/-- Python `s.strip()`: drop whitespace from both ends. -/
def pyStrip (s : Str) : Str :=
  ((s.dropWhile pyIsSpace).reverse.dropWhile pyIsSpace).reverse

/-- Python `s.split(sep)` for a one-character separator: split at every
occurrence, keeping empty segments (so the result is never empty). -/
def pySplitChar (sep : Char) : Str → List Str
  | [] => [[]]
  | c :: cs =>
    match pySplitChar sep cs with
    | [] => [[]]
    | l :: ls => if c = sep then [] :: l :: ls else (c :: l) :: ls

/-- Value of a nonempty all-digit string, else `none`
(the digit-run core of Python `int`/`float` parsing). -/
def digitsVal (s : Str) : Option ℕ :=
  if s ≠ [] ∧ s.all Char.isDigit then
    some (s.foldl (fun acc c => 10 * acc + (c.toNat - 48)) 0)
  else none

/-- Python `int(s)` on an already-stripped string: optional sign then digits.
(Python additionally allows `_` digit separators; no claim depends on them.) -/
def pyInt? (s : Str) : Option ℤ :=
  match s with
  | '-' :: rest => (digitsVal rest).map (fun n => -(n : ℤ))
  | '+' :: rest => (digitsVal rest).map (fun n => (n : ℤ))
  | _ => (digitsVal s).map (fun n => (n : ℤ))

/-- Unsigned decimal (`"12"`, `"12.5"`, `"12."`, `".5"`) as a rational. -/
def decVal? (s : Str) : Option ℚ :=
  match pySplitChar '.' s with
  | [i] => (digitsVal i).map (fun n => (n : ℚ))
  | [i, f] =>
    if i = [] then
      (digitsVal f).map (fun m => (m : ℚ) / (10 : ℚ) ^ f.length)
    else if f = [] then
      (digitsVal i).map (fun n => (n : ℚ))
    else
      match digitsVal i, digitsVal f with
      | some n, some m => some ((n : ℚ) + (m : ℚ) / (10 : ℚ) ^ f.length)
      | _, _ => none
  | _ => none

/-- Python `float(s)` on an already-stripped string, for the plain decimal
forms the response protocol uses (exponent/`inf`/`nan` spellings are not
modelled; no claim depends on them). -/
def pyFloat? (s : Str) : Option ℚ :=
  match s with
  | '-' :: rest => (decVal? rest).map (fun q => -q)
  | '+' :: rest => decVal? rest
  | _ => decVal? s

/-- Python `s.split()` helper: accumulate the current word (reversed). -/
def splitWsAux : Str → Str → List Str
  | [], acc => if acc = [] then [] else [acc.reverse]
  | c :: cs, acc =>
    if pyIsSpace c then
      if acc = [] then splitWsAux cs [] else acc.reverse :: splitWsAux cs []
    else splitWsAux cs (c :: acc)

/-- Python `s.split()` (no argument): split on whitespace runs, no empties. -/
def pySplitWs (s : Str) : List Str := splitWsAux s []

/-- Python `s.replace(pat, rep)`: replace all non-overlapping occurrences,
left to right. -/
def replaceAll (pat rep : Str) : Str → Str
  | [] => []
  | c :: cs =>
    if h : pat ≠ [] ∧ pat.isPrefixOf (c :: cs) then
      rep ++ replaceAll pat rep ((c :: cs).drop pat.length)
    else
      c :: replaceAll pat rep cs
termination_by s => s.length
decreasing_by
  · simp only [List.length_drop, List.length_cons]
    have : pat.length ≠ 0 := fun hl => h.1 (List.eq_nil_of_length_eq_zero hl)
    omega
  · simp

/-! ## Configuration (`config.py`, `CONFIG["retrieval"]`) -/

/-- `CONFIG["retrieval"]["top_k_classes"]`. -/
def top_k_classes : ℕ := 5

/-- `CONFIG["retrieval"]["top_k_methods_per_class"]`. -/
def top_k_methods_per_class : ℕ := 10

/-- `CONFIG["retrieval"]["relevance_threshold"]`. -/
def relevance_threshold : ℚ := 0.85

/-- The key set of `BEHAVIOR_DESCRIPTIONS` (`config.py`). -/
def BEHAVIOR_IDS : List ℕ := [1, 2, 3, 4, 5, 6, 7, 8, 9, 10, 11, 12]

/-- Headline of each entry of `BEHAVIOR_DESCRIPTIONS`; the bodies are long
prose whose content never influences control flow, so only their first
line is carried here. -/
def behaviorDescriptionText (b : ℕ) : Str :=
  (match b with
  | 1 => "Privacy Stealing"
  | 2 => "SMS/CALL Abuse"
  | 3 => "Remote Control"
  | 4 => "Bank/Financial Stealing"
  | 5 => "Ransom"
  | 6 => "Accessibility Abuse"
  | 7 => "Privilege Escalation"
  | 8 => "Stealthy Download"
  | 9 => "Aggressive Advertising"
  | 10 => "Miner"
  | 11 => "Tricky Behavior"
  | _ => "Premium Service Abuse").data

/-- `BEHAVIOR_DESCRIPTIONS` as a partial map: `some` exactly on the 12 ids. -/
def behaviorDescription? (b : ℕ) : Option Str :=
  if b ∈ BEHAVIOR_IDS then some (behaviorDescriptionText b) else none

/-! ## `smali_parser.py` — `SmaliParser` -/

/-- The tuple of directive spellings skipped by `clean_smali_content`. -/
def debugDirectives : List Str :=
  [".line", ".source", ".prologue", ".local", ".end local", ".param",
   ".end param", ".restart local", ".end method", ".annotation",
   ".end annotation", ".catch", ".catchall", ".registers", ".end field",
   ".end subannotation", ".end array-data", ".array-data", ".packed-switch",
   ".end packed-switch", ".sparse-switch", ".end sparse-switch"].map String.data

/-- The per-line keep test of `clean_smali_content`: drop blank lines,
`#` comments, and debug/metadata directive lines. -/
def keepLine (line : Str) : Bool :=
  let stripped := pyStrip line
  ¬(stripped = [] ∨ stripped.head? = some '#' ∨
    debugDirectives.any (fun d => d.isPrefixOf stripped))

/-- `SmaliParser.clean_smali_content`: filter the lines and re-join with
newlines.  (Python iterates `content.splitlines()`; it is modelled as a
split on `'\n'` — the difference is a possible trailing empty segment,
which the blank-line test drops anyway.) -/
def cleanSmaliContent (content : Str) : Str :=
  List.intercalate ['\n'] ((pySplitChar '\n' content).filter keepLine)

/-- length of `'\n'.join(lines)`. -/
def joinLen (ls : List Str) : ℕ := (List.intercalate ['\n'] ls).length

/-- `SmaliParser._find_method_end`: scan the lines of `content[start_pos:]`
for the first line that strips to `.end method`; return
`start_pos + len('\n'.join(lines[:i+1]))`, or `None` when absent. -/
def findMethodEnd (content : Str) (startPos : ℕ) : Option ℕ :=
  let lines := pySplitChar '\n' (content.drop startPos)
  match lines.findIdx? (fun l => pyStrip l = ".end method".data) with
  | some i => some (startPos + joinLen (lines.take (i + 1)))
  | none => none

/-- The content-slicing step of `SmaliParser._extract_methods`
(`content[method_start:method_end] if method_end else ""`): a `None`
(or zero) end position yields the empty string, not a slice. -/
def extractMethodContent (content : Str) (methodStart : ℕ) : Str :=
  match findMethodEnd content methodStart with
  | some e => if e = 0 then [] else (content.take e).drop methodStart
  | none => []

/-! ## `retrieval_engine.py` — `MalwareRetrievalEngine` -/

/-- The slice of a vector-store `Document` the retrieval code reads:
`doc.metadata['class_name']` and `doc.metadata['raw_content']`. -/
structure SDoc where
  class_name : Str
  raw_content : Str
deriving DecidableEq

/-- `f"L{doc.metadata['class_name']};"`. -/
def classSignatureOf (name : Str) : Str := 'L' :: (name ++ [';'])

/-- One entry of `re_ranked_results` (the dict built at lines 86–93 of
`retrieval_engine.py`). -/
structure RankedResult where
  class_name : Str
  class_signature : Str
  vector_similarity_score : ℚ
  llm_relevance_score : ℚ
  explanation : Str
  metadata : SDoc
deriving DecidableEq

/-- The dedup loop of `retrieve_classes_for_behavior` (lines 64–71): walk the
stage-1 candidates in rank order, keeping the first occurrence of each
derived class signature (`seen_signatures` is carried as a list-set). -/
def dedupeBySignature : List (SDoc × ℚ) → List Str → List (SDoc × ℚ)
  | [], _ => []
  | (d, s) :: rest, seen =>
    let sig := classSignatureOf d.class_name
    if sig ∈ seen then dedupeBySignature rest seen
    else (d, s) :: dedupeBySignature rest (sig :: seen)

/-- One step of the response parse of `_assess_class_relevance`
(lines 135–146): state is `(score, explanation)`.  Lines are examined
unstripped, exactly as in the source. -/
def assessLineStep (st : ℚ × Str) (line : Str) : ℚ × Str :=
  if ("Score:".data).isPrefixOf line then
    -- `float(line.split(':')[1].strip())`, defaulting to 0.0 on failure
    (match pyFloat? (pyStrip ((pySplitChar ':' line).getD 1 [])) with
     | some v => v
     | none => 0, st.2)
  else if ("Explanation:".data).isPrefixOf line then
    (st.1, pyStrip (line.drop ("Explanation:".data).length))
  else if ("Relevant APIs:".data).isPrefixOf line then
    let apis := pyStrip (line.drop ("Relevant APIs:".data).length)
    if apis ≠ [] ∧ apis ≠ "None".data then
      (st.1, st.2 ++ " Relevant APIs: ".data ++ apis)
    else st
  else st

/-- The success-path parse of `_assess_class_relevance` (lines 130–148):
fold the lines starting from score `0.0` and the fixed placeholder
explanation. -/
def parseAssessResult (result : Str) : ℚ × Str :=
  (pySplitChar '\n' result).foldl assessLineStep
    (0, "No explanation available.".data)

/-- `_assess_class_relevance` (lines 114–152).  The text-generation call is
an oracle: `.ok` is parsed, `.error` (a call that raised after the
capability's own retries) is caught by the `except` clause, which logs and
returns score `0.0` with a placeholder explanation.  The second component
is the logged error message, if any.  (The Python message interpolates the
vector score with `:.3f`; the rendering of the number is not modelled.) -/
def assessClassRelevance (llmOutcome : Except Str Str) : (ℚ × Str) × Option Str :=
  match llmOutcome with
  | .ok result => (parseAssessResult result, none)
  | .error e =>
    ((0, "Error in assessment. Vector similarity score: ".data),
     some ("Error assessing class relevance: ".data ++ e))

/-- The re-ranking loop of `retrieve_classes_for_behavior` (lines 79–93):
zip the deduplicated candidates with their relevance results; an
`Exception` entry is logged and skipped; a below-threshold score is
dropped; otherwise the result dict is built.  Returns
`(re_ranked_results, logged error messages)`. -/
def buildReRanked : List ((SDoc × ℚ) × Except Str (ℚ × Str)) →
    List RankedResult × List Str
  | [] => ([], [])
  | ((d, _), .error e) :: rest =>
    ((buildReRanked rest).1,
     ("Error re-ranking class ".data ++ d.class_name ++ ": ".data ++ e) ::
       (buildReRanked rest).2)
  | ((d, score), .ok (relevance_score, explanation)) :: rest =>
    if relevance_threshold ≤ relevance_score then
      ({ class_name := d.class_name,
         class_signature := classSignatureOf d.class_name,
         vector_similarity_score := score,
         llm_relevance_score := relevance_score,
         explanation := explanation,
         metadata := d } :: (buildReRanked rest).1, (buildReRanked rest).2)
    else buildReRanked rest

/-- The relevance results fed into the zip at line 79: one
`_assess_class_relevance` outcome per deduplicated candidate.  Since
`_assess_class_relevance` catches every exception, each entry is an
ordinary value (`Except.ok`); the `isinstance(…, Exception)` branch of
`buildReRanked` is kept because it is in the source, but is never taken. -/
def relevanceResultsOf (docsAndScores : List (SDoc × ℚ))
    (llmOutcomes : List (Except Str Str)) : List (Except Str (ℚ × Str)) :=
  ((dedupeBySignature docsAndScores []).zip llmOutcomes).map
    (fun p => Except.ok (assessClassRelevance p.2).1)

/-- `re_ranked_results` as of line 93, before the final sort/truncate. -/
def keptCandidates (docsAndScores : List (SDoc × ℚ))
    (llmOutcomes : List (Except Str Str)) : List RankedResult :=
  (buildReRanked ((dedupeBySignature docsAndScores []).zip
    (relevanceResultsOf docsAndScores llmOutcomes))).1

/-- All error messages logged during one `retrieve_classes_for_behavior`
run: those from `_assess_class_relevance` and those from the re-ranking
loop. -/
def retrieveLogs (docsAndScores : List (SDoc × ℚ))
    (llmOutcomes : List (Except Str Str)) : List Str :=
  (((dedupeBySignature docsAndScores []).zip llmOutcomes).filterMap
    (fun p => (assessClassRelevance p.2).2)) ++
  (buildReRanked ((dedupeBySignature docsAndScores []).zip
    (relevanceResultsOf docsAndScores llmOutcomes))).2

/-- `retrieve_classes_for_behavior` (lines 46–97), from the stage-1
candidate list on: dedupe, assess (via the per-candidate oracle), filter by
threshold, stable-sort descending by `llm_relevance_score`
(`list.sort(key=…, reverse=True)` is a stable descending sort, modelled by
`List.mergeSort`), truncate to `top_k_classes`. -/
def retrieveClassesForBehavior (docsAndScores : List (SDoc × ℚ))
    (llmOutcomes : List (Except Str Str)) : List RankedResult :=
  ((keptCandidates docsAndScores llmOutcomes).mergeSort
    (fun a b => decide (b.llm_relevance_score ≤ a.llm_relevance_score))).take
    top_k_classes

/-- One method record built by `_parse_method_analysis_response`
(lines 194–200 of `retrieval_engine.py`). -/
structure PyMethod where
  method_signature : Str
  method_name : Str
  relevance_score : ℚ
  role_explanation : Str
  method_content : Str
deriving DecidableEq

/-- `_extract_method_name` (lines 222–237): take the text before `'('`,
delete every `".method"`, strip, and return the last whitespace-separated
word, else `"unknown_method"`.  (The `try/except` wrapper never fires: no
step of the body raises.) -/
def extractMethodName (sig : Str) : Str :=
  match pySplitChar '(' sig with
  | [] => "unknown_method".data
  | methodPart :: _ =>
    let methodPart := pyStrip (replaceAll ".method".data [] methodPart)
    match (pySplitWs methodPart).getLast? with
    | some n => n
    | none => "unknown_method".data

/-- The relevance score a `CONFIDENCE:` line assigns (lines 206–211 of
`retrieval_engine.py`): `int(line.split('CONFIDENCE:', 1)[1].strip()) / 100.0`,
or the default `0.5` when the payload is not an integer.  `line` is the
already-stripped line. -/
def confidenceScoreOf (line : Str) : ℚ :=
  match pyInt? (pyStrip (line.drop ("CONFIDENCE:".data).length)) with
  | some n => (n : ℚ) / 100  -- convert to 0–1 scale
  | none => 0.5              -- default confidence

/-- One loop iteration of `_parse_method_analysis_response` (lines 184–211).
State is `(methods, current_method)`; the Python `current_method = {}`
sentinel (falsy) is `none`.  The line is stripped first, then the
`METHOD:` / `ROLE:` / `CONFIDENCE:` prefixes are tried in order; the
`and current_method` guards make `ROLE:`/`CONFIDENCE:` lines before any
`METHOD:` line no-ops. -/
def parseMethodLine (st : List PyMethod × Option PyMethod) (rawLine : Str) :
    List PyMethod × Option PyMethod :=
  let line := pyStrip rawLine
  if ("METHOD:".data).isPrefixOf line then
    -- save previous method if it exists, then start a new record
    let methods := match st.2 with
      | some m => st.1 ++ [m]
      | none => st.1
    let sig := pyStrip (line.drop ("METHOD:".data).length)
    (methods,
     some { method_signature := sig, method_name := extractMethodName sig,
            relevance_score := 0, role_explanation := [], method_content := [] })
  else if ("ROLE:".data).isPrefixOf line then
    match st.2 with
    | some m =>
      (st.1, some { m with role_explanation := pyStrip (line.drop ("ROLE:".data).length) })
    | none => st
  else if ("CONFIDENCE:".data).isPrefixOf line then
    match st.2 with
    | some m => (st.1, some { m with relevance_score := confidenceScoreOf line })
    | none => st
  else st

/-- `_parse_method_analysis_response` (lines 178–220): fold the lines, flush
the last open record, and stable-sort descending by `relevance_score`. -/
def parseMethodAnalysisResponse (response : Str) : List PyMethod :=
  let st := (pySplitChar '\n' response).foldl parseMethodLine ([], none)
  let methods := st.1 ++ (match st.2 with | some m => [m] | none => [])
  methods.mergeSort (fun a b => decide (b.relevance_score ≤ a.relevance_score))

/-- `_analyze_methods_with_class_context` (lines 154–176) followed by the
truncation in `analyze_methods_in_class` (line 112): a failed call (after
the capability's retries) is caught, logged and yields `[]`; a response is
parsed and truncated to `top_k_methods_per_class`.  The second component is
the logged error message, if any. -/
def analyzeMethodsInClass (llmOutcome : Except Str Str) :
    List PyMethod × Option Str :=
  match llmOutcome with
  | .error e =>
    ([], some ("Error analyzing methods with class context: ".data ++ e))
  | .ok result =>
    ((parseMethodAnalysisResponse result).take top_k_methods_per_class, none)

/-! ## `report_generator.py` and `main.py` — orchestration and report -/

/-- `BehaviorResult`: the `{"behavior_id", "class_results"}` dict built by
`SmaliMalwareAnalyzer._analyze_methods`, with each class carrying its
attached `involved_methods`. -/
structure BehaviorResult where
  behavior_id : ℕ
  class_results : List (RankedResult × List PyMethod)
deriving DecidableEq

/-- A formatted method entry of the report. -/
structure FormattedMethod where
  method_signature : Str
  role_explanation : Str
  relevance_score : ℚ
deriving DecidableEq

/-- A formatted class entry of the report. -/
structure FormattedClass where
  class_signature : Str
  class_explanation : Str
  vector_similarity_score : ℚ
  llm_relevance_score : ℚ
  involved_methods : List FormattedMethod
deriving DecidableEq

/-- A formatted behavior entry of the report. -/
structure FormattedBehavior where
  behavior_id : ℕ
  behavior_description : Str
  relevant_classes : List FormattedClass
deriving DecidableEq

/-- The assembled report (`report_generator.py` lines 14–27).  The
wall-clock `analysis_timestamp` is not modelled. -/
structure Report where
  app_name : Str
  total_behaviors_analyzed : ℕ
  behaviors : List FormattedBehavior
deriving DecidableEq

/-- `ReportGenerator._format_behavior_result` (lines 29–58). -/
def formatBehaviorResult (br : BehaviorResult) : FormattedBehavior :=
  { behavior_id := br.behavior_id,
    behavior_description := (behaviorDescription? br.behavior_id).getD [],
    relevant_classes := br.class_results.map (fun p =>
      { class_signature := p.1.class_signature,
        class_explanation := p.1.explanation,
        vector_similarity_score := p.1.vector_similarity_score,
        llm_relevance_score := p.1.llm_relevance_score,
        involved_methods := p.2.map (fun m =>
          { method_signature := m.method_signature,
            role_explanation := m.role_explanation,
            relevance_score := m.relevance_score }) }) }

/-- `ReportGenerator.generate_behavior_report` (lines 14–27):
`total_behaviors_analyzed` is the length of the supplied result list and
`behaviors` is its formatting. -/
def generateBehaviorReport (appName : Str) (behaviorResults : List BehaviorResult) :
    Report :=
  { app_name := appName,
    total_behaviors_analyzed := behaviorResults.length,
    behaviors := behaviorResults.map formatBehaviorResult }

/-- `SmaliMalwareAnalyzer._analyze_methods` (`main.py` lines 137–176): attach
`involved_methods` to each class result (the per-class oracle gives each
method-analysis call's outcome; `analyze_methods_in_class` never raises, so
the `isinstance(…, Exception)` skip never fires) and count the attached
methods.  An empty class list short-circuits to an empty result. -/
def analyzeMethodsForBehavior (b : ℕ) (classResults : List RankedResult)
    (methodOracle : RankedResult → Except Str Str) : BehaviorResult × ℕ :=
  if classResults = [] then ({ behavior_id := b, class_results := [] }, 0)
  else
    let attached := classResults.map
      (fun cr => (cr, (analyzeMethodsInClass (methodOracle cr)).1))
    ({ behavior_id := b, class_results := attached },
     (attached.map (fun p => p.2.length)).sum)

/-- `SmaliMalwareAnalyzer.analyze_behaviors` (`main.py` lines 72–135), from
the requested ids on: drop unknown ids with a warning; run stage-1
retrieval per behavior via the `stage1` oracle (`.error` is an exception
carried back by `asyncio.gather(..., return_exceptions=True)`), dropping
failed behaviors; analyze methods for the survivors; assemble the report.
`stage1 b` is the outcome of `retrieve_classes_for_behavior(b)` and
`methodOracle b cr` the outcome of the method-analysis call for class `cr`
of behavior `b`. -/
def analyzeBehaviors (appName : Str) (behaviorIds : List ℕ)
    (stage1 : ℕ → Except Str (List RankedResult))
    (methodOracle : ℕ → RankedResult → Except Str Str) : Report :=
  let filtered := behaviorIds.filter (fun b => (behaviorDescription? b).isSome)
  let succeeded := filtered.filterMap (fun b =>
    match stage1 b with
    | .ok classResults => some (b, classResults)
    | .error _ => none)
  let behaviorResults := succeeded.map
    (fun p => (analyzeMethodsForBehavior p.1 p.2 (methodOracle p.1)).1)
  generateBehaviorReport appName behaviorResults

/-! ## General helper lemmas -/

/-- A prefix whose head is `a` forces the head of the whole string. -/
lemma head_of_isPrefixOf {p l : Str} {a : Char}
    (hp : p.isPrefixOf l = true) (ha : p.head? = some a) : l.head? = some a := by
  cases p with
  | nil => simp at ha
  | cons x xs =>
    cases l with
    | nil => simp [List.isPrefixOf] at hp
    | cons y ys =>
      simp only [List.isPrefixOf, Bool.and_eq_true, beq_iff_eq] at hp
      simp only [List.head?_cons, Option.some.injEq] at ha ⊢
      rw [← hp.1, ha]

/-- Two prefixes of the same string cannot start with different characters. -/
lemma isPrefixOf_false_of_head_ne {p q l : Str} {a b : Char}
    (hp : p.isPrefixOf l = true) (ha : p.head? = some a) (hb : q.head? = some b)
    (hne : a ≠ b) : q.isPrefixOf l = false := by
  cases hq : q.isPrefixOf l with
  | false => rfl
  | true =>
    have h1 := head_of_isPrefixOf hp ha
    have h2 := head_of_isPrefixOf hq hb
    rw [h1] at h2
    exact absurd (Option.some.inj h2) hne

/-! ## C7 — method blocks without a matching end marker -/

/-- A concrete Smali file.  Its `.end method` line is removed by
`clean_smali_content` (the directive tuple contains `.end method`), so the
end-marker search over the cleaned content cannot succeed; position 18 of
the cleaned content is the start of the `.method` block. -/
def sampleSmaliRaw : Str :=
  ".class public La;\n.method public a()V\n    return-void\n.end method\n".data

/-- C7 counterexample: at this concrete file, the method block starting at
position 18 of the cleaned content has no matching `.end method` marker,
and the extracted method content is the empty string — NOT the span from
the method start to the end of the file, which is nonempty.  This refutes
the claim that such a method's raw content span extends to end of file. -/
theorem C7_counterexample :
    (".method".data).isPrefixOf ((cleanSmaliContent sampleSmaliRaw).drop 18) = true ∧
    findMethodEnd (cleanSmaliContent sampleSmaliRaw) 18 = none ∧
    extractMethodContent (cleanSmaliContent sampleSmaliRaw) 18 = [] ∧
    (cleanSmaliContent sampleSmaliRaw).drop 18 ≠ [] ∧
    extractMethodContent (cleanSmaliContent sampleSmaliRaw) 18 ≠
      (cleanSmaliContent sampleSmaliRaw).drop 18 := by
  decide

/-- C7 (amended): for every method block whose method-start marker has no
matching literal end-of-method marker in the (cleaned) file content, the
extracted method's raw content is the empty string (`_find_method_end`
returns `None` and `_extract_methods` substitutes `""`), not the span to
end of file. -/
theorem C7_no_end_marker_empty_content (content : Str) (startPos : ℕ)
    (h : findMethodEnd content startPos = none) :
    extractMethodContent content startPos = [] := by
  unfold extractMethodContent
  rw [h]

/-- Witness for `C7_no_end_marker_empty_content` at the concrete file. -/
theorem C7_no_end_marker_empty_content_witness :
    findMethodEnd (cleanSmaliContent sampleSmaliRaw) 18 = none ∧
    extractMethodContent (cleanSmaliContent sampleSmaliRaw) 18 = [] :=
  ⟨by decide, C7_no_end_marker_empty_content _ 18 (by decide)⟩

/-! ## Branch characterizations of `parseMethodLine` -/

/-- A `METHOD:` line flushes the open record and opens a fresh one with
relevance score `0`. -/
lemma parseMethodLine_method (st : List PyMethod × Option PyMethod) (line : Str)
    (hM : ("METHOD:".data).isPrefixOf (pyStrip line) = true) :
    parseMethodLine st line =
      ((match st.2 with | some m => st.1 ++ [m] | none => st.1),
       some { method_signature := pyStrip ((pyStrip line).drop ("METHOD:".data).length),
              method_name := extractMethodName
                (pyStrip ((pyStrip line).drop ("METHOD:".data).length)),
              relevance_score := 0, role_explanation := [], method_content := [] }) := by
  simp only [parseMethodLine, hM, if_true]

/-- A `ROLE:` line only rewrites the open record's explanation. -/
lemma parseMethodLine_role (st : List PyMethod × Option PyMethod) (line : Str)
    (hM : ("METHOD:".data).isPrefixOf (pyStrip line) = false)
    (hR : ("ROLE:".data).isPrefixOf (pyStrip line) = true) :
    parseMethodLine st line =
      (match st.2 with
       | some m => (st.1, some { m with role_explanation := pyStrip ((pyStrip line).drop ("ROLE:".data).length) })
       | none => st) := by
  simp only [parseMethodLine, hM, hR, Bool.false_eq_true, if_false, if_true]

/-- A `CONFIDENCE:` line only rewrites the open record's relevance score:
`confidence / 100` when the payload parses as an integer, `0.5` otherwise. -/
lemma parseMethodLine_confidence (st : List PyMethod × Option PyMethod) (line : Str)
    (hC : ("CONFIDENCE:".data).isPrefixOf (pyStrip line) = true) :
    parseMethodLine st line =
      (match st.2 with
       | some m => (st.1, some { m with relevance_score := confidenceScoreOf (pyStrip line) })
       | none => st) := by
  have hM : ("METHOD:".data).isPrefixOf (pyStrip line) = false :=
    isPrefixOf_false_of_head_ne (a := 'C') (b := 'M') hC (by decide) (by decide) (by decide)
  have hR : ("ROLE:".data).isPrefixOf (pyStrip line) = false :=
    isPrefixOf_false_of_head_ne (a := 'C') (b := 'R') hC (by decide) (by decide) (by decide)
  simp only [parseMethodLine, hM, hR, hC, Bool.false_eq_true, if_false, if_true]

/-- Any other line leaves the state untouched. -/
lemma parseMethodLine_other (st : List PyMethod × Option PyMethod) (line : Str)
    (hM : ("METHOD:".data).isPrefixOf (pyStrip line) = false)
    (hR : ("ROLE:".data).isPrefixOf (pyStrip line) = false)
    (hC : ("CONFIDENCE:".data).isPrefixOf (pyStrip line) = false) :
    parseMethodLine st line = st := by
  simp only [parseMethodLine, hM, hR, hC, Bool.false_eq_true, if_false]

/-! ## C6 — `CONFIDENCE:` sets `relevance_score = confidence / 100` -/

/-- C6: in method-attribution response parsing, a `CONFIDENCE:` line whose
payload parses as the integer `n` sets the current record's
`relevance_score` to exactly `n / 100` (so `CONFIDENCE: 80` yields exactly
`0.8`), and a `CONFIDENCE:` line whose payload is not an integer sets it
to `0.5`. -/
theorem C6_confidence_sets_score :
    (∀ (ms : List PyMethod) (m : PyMethod) (line : Str) (n : ℤ),
      ("CONFIDENCE:".data).isPrefixOf (pyStrip line) = true →
      pyInt? (pyStrip ((pyStrip line).drop ("CONFIDENCE:".data).length)) = some n →
      parseMethodLine (ms, some m) line =
        (ms, some { m with relevance_score := (n : ℚ) / 100 })) ∧
    (∀ (ms : List PyMethod) (m : PyMethod) (line : Str),
      ("CONFIDENCE:".data).isPrefixOf (pyStrip line) = true →
      pyInt? (pyStrip ((pyStrip line).drop ("CONFIDENCE:".data).length)) = none →
      parseMethodLine (ms, some m) line =
        (ms, some { m with relevance_score := 0.5 })) ∧
    (parseMethodAnalysisResponse ("METHOD: a()V\nCONFIDENCE: 80".data)).map
      (fun m => m.relevance_score) = [(0.8 : ℚ)] := by
  refine ⟨?_, ?_, ?_⟩
  · intro ms m line n hC hn
    rw [parseMethodLine_confidence (ms, some m) line hC]
    simp only [confidenceScoreOf, hn]
  · intro ms m line hC hn
    rw [parseMethodLine_confidence (ms, some m) line hC]
    simp only [confidenceScoreOf, hn]
  · simp +decide only [parseMethodAnalysisResponse, parseMethodLine, confidenceScoreOf,
      pySplitChar, pyStrip, pyIsSpace, extractMethodName, replaceAll,
      pySplitWs, splitWsAux, List.foldl, List.dropWhile, List.reverse, List.reverseAux,
      List.drop, List.isPrefixOf, List.getD, List.mergeSort_singleton, List.all,
      Option.map, List.getLast?, List.take, List.append, List.map,
      show pyInt? ['8', '0'] = some 80 from by decide]
    norm_num

/-- Witness for `C6_confidence_sets_score` at concrete lines. -/
theorem C6_confidence_sets_score_witness :
    parseMethodLine ([], some ⟨"a()V".data, "a".data, 0, [], []⟩) ("CONFIDENCE: 80".data) =
      ([], some ⟨"a()V".data, "a".data, ((80 : ℤ) : ℚ) / 100, [], []⟩) ∧
    parseMethodLine ([], some ⟨"a()V".data, "a".data, 0, [], []⟩) ("CONFIDENCE: eighty".data) =
      ([], some ⟨"a()V".data, "a".data, 0.5, [], []⟩) :=
  ⟨C6_confidence_sets_score.1 [] ⟨"a()V".data, "a".data, 0, [], []⟩
      ("CONFIDENCE: 80".data) 80 (by decide) (by decide),
   C6_confidence_sets_score.2.1 [] ⟨"a()V".data, "a".data, 0, [], []⟩
      ("CONFIDENCE: eighty".data) (by decide) (by decide)⟩

/-! ## C9 — default scores and pre-`METHOD:` lines -/

/-- Lines with no `METHOD:` marker leave a `none` current record (and the
emitted list) untouched; in particular `ROLE:`/`CONFIDENCE:` lines before
any `METHOD:` line are ignored entirely. -/
lemma foldl_parseMethodLine_none (lines : List Str) :
    ∀ ms : List PyMethod,
    (∀ l ∈ lines, ("METHOD:".data).isPrefixOf (pyStrip l) = false) →
    lines.foldl parseMethodLine (ms, none) = (ms, none) := by
  induction lines with
  | nil => intro ms _; rfl
  | cons l ls ih =>
    intro ms h
    have hl := h l (List.mem_cons_self l ls)
    have hstep : parseMethodLine (ms, none) l = (ms, none) := by
      by_cases hR : ("ROLE:".data).isPrefixOf (pyStrip l) = true
      · rw [parseMethodLine_role (ms, none) l hl hR]
      · by_cases hC : ("CONFIDENCE:".data).isPrefixOf (pyStrip l) = true
        · rw [parseMethodLine_confidence (ms, none) l hC]
        · exact parseMethodLine_other (ms, none) l hl
            (Bool.not_eq_true _ ▸ hR) (Bool.not_eq_true _ ▸ hC)
    rw [List.foldl_cons, hstep]
    exact ih ms (fun x hx => h x (List.mem_cons_of_mem l hx))

/-- Lines that are neither `METHOD:` nor `CONFIDENCE:` preserve the open
record's relevance score and emit nothing. -/
lemma foldl_parseMethodLine_keeps_score (lines : List Str) :
    ∀ (ms : List PyMethod) (m : PyMethod),
    (∀ l ∈ lines, ("METHOD:".data).isPrefixOf (pyStrip l) = false ∧
                  ("CONFIDENCE:".data).isPrefixOf (pyStrip l) = false) →
    ∃ m', lines.foldl parseMethodLine (ms, some m) = (ms, some m') ∧
          m'.relevance_score = m.relevance_score := by
  induction lines with
  | nil => intro ms m _; exact ⟨m, rfl, rfl⟩
  | cons l ls ih =>
    intro ms m h
    have hl := h l (List.mem_cons_self l ls)
    by_cases hR : ("ROLE:".data).isPrefixOf (pyStrip l) = true
    · have hstep := parseMethodLine_role (ms, some m) l hl.1 hR
      obtain ⟨m', he, hs⟩ := ih ms
        { m with role_explanation := pyStrip ((pyStrip l).drop ("ROLE:".data).length) }
        (fun x hx => h x (List.mem_cons_of_mem l hx))
      exact ⟨m', by rw [List.foldl_cons, hstep]; exact he, hs⟩
    · have hstep := parseMethodLine_other (ms, some m) l hl.1
        (Bool.not_eq_true _ ▸ hR) hl.2
      obtain ⟨m', he, hs⟩ := ih ms m (fun x hx => h x (List.mem_cons_of_mem l hx))
      exact ⟨m', by rw [List.foldl_cons, hstep]; exact he, hs⟩

/-- C9: a `METHOD:` record with no `CONFIDENCE:` line keeps the initial
relevance score `0.0` (the `0.5` default applies only to a present but
unparseable `CONFIDENCE:` line — see `C6`), and `ROLE:`/`CONFIDENCE:`
lines before any `METHOD:` line are ignored entirely. -/
theorem C9_no_confidence_keeps_zero :
    (∀ (ms : List PyMethod) (lines : List Str),
      (∀ l ∈ lines, ("METHOD:".data).isPrefixOf (pyStrip l) = false) →
      lines.foldl parseMethodLine (ms, none) = (ms, none)) ∧
    (∀ (ms : List PyMethod) (cur : Option PyMethod) (line : Str),
      ("METHOD:".data).isPrefixOf (pyStrip line) = true →
      ∃ m', (parseMethodLine (ms, cur) line).2 = some m' ∧ m'.relevance_score = 0) ∧
    (∀ (ms : List PyMethod) (m : PyMethod) (lines : List Str),
      (∀ l ∈ lines, ("METHOD:".data).isPrefixOf (pyStrip l) = false ∧
                    ("CONFIDENCE:".data).isPrefixOf (pyStrip l) = false) →
      ∃ m', lines.foldl parseMethodLine (ms, some m) = (ms, some m') ∧
            m'.relevance_score = m.relevance_score) := by
  refine ⟨fun ms lines h => foldl_parseMethodLine_none lines ms h, ?_,
    fun ms m lines h => foldl_parseMethodLine_keeps_score lines ms m h⟩
  intro ms cur line hM
  rw [parseMethodLine_method (ms, cur) line hM]
  exact ⟨_, rfl, rfl⟩

/-- Witness for `C9_no_confidence_keeps_zero` at concrete inputs: leading
`ROLE:`/`CONFIDENCE:` lines are dropped, a fresh `METHOD:` record scores
`0`, and a `ROLE:`-only block keeps the open record's score. -/
theorem C9_no_confidence_keeps_zero_witness :
    (["ROLE: decrypts files".data, "CONFIDENCE: 90".data].foldl parseMethodLine
       ([], none) = ([], none)) ∧
    (∃ m', (parseMethodLine ([], none) ("METHOD: a()V".data)).2 = some m' ∧
           m'.relevance_score = 0) ∧
    (∃ m', ["ROLE: reads SMS".data].foldl parseMethodLine
             ([], some ⟨"a()V".data, "a".data, 0, [], []⟩) = ([], some m') ∧
           m'.relevance_score = (⟨"a()V".data, "a".data, 0, [], []⟩ : PyMethod).relevance_score) :=
  ⟨C9_no_confidence_keeps_zero.1 [] ["ROLE: decrypts files".data, "CONFIDENCE: 90".data]
     (by decide),
   C9_no_confidence_keeps_zero.2.1 [] none ("METHOD: a()V".data) (by decide),
   C9_no_confidence_keeps_zero.2.2 [] ⟨"a()V".data, "a".data, 0, [], []⟩
     ["ROLE: reads SMS".data] (by decide)⟩

/-! ## C8 — ranges of parsed relevance scores -/

/-- C8 counterexample: the model response `METHOD: a()V\nCONFIDENCE: -50`
produces a method finding with `relevance_score = -0.5 < 0`, so method
finding scores are neither non-negative nor within `0.0–1.0` for all
possible response texts (the parser accepts any integer after
`CONFIDENCE:` and divides it by 100). -/
theorem C8_counterexample :
    ∃ m ∈ parseMethodAnalysisResponse ("METHOD: a()V\nCONFIDENCE: -50".data),
      m.relevance_score < 0 := by
  simp +decide only [parseMethodAnalysisResponse, parseMethodLine, confidenceScoreOf,
    pySplitChar, pyStrip, pyIsSpace, extractMethodName, replaceAll,
    pySplitWs, splitWsAux, List.foldl, List.dropWhile, List.reverse, List.reverseAux,
    List.drop, List.isPrefixOf, List.getD, List.mergeSort_singleton, List.all,
    Option.map, List.getLast?, List.take, List.append, List.mem_singleton,
    show pyInt? ['-', '5', '0'] = some (-50) from by decide]
  norm_num

/-- The fold of `parseMethodLine` keeps every score in `[0, 1]` as long as
every `CONFIDENCE:` payload that parses is an integer in `0–100`. -/
lemma foldl_parseMethodLine_range (lines : List Str)
    (h : ∀ l ∈ lines, ("CONFIDENCE:".data).isPrefixOf (pyStrip l) = true →
      ∀ n : ℤ, pyInt? (pyStrip ((pyStrip l).drop ("CONFIDENCE:".data).length)) = some n →
      0 ≤ n ∧ n ≤ 100) :
    ∀ st : List PyMethod × Option PyMethod,
    (∀ m ∈ st.1, 0 ≤ m.relevance_score ∧ m.relevance_score ≤ 1) →
    (∀ m, st.2 = some m → 0 ≤ m.relevance_score ∧ m.relevance_score ≤ 1) →
    (∀ m ∈ (lines.foldl parseMethodLine st).1,
       0 ≤ m.relevance_score ∧ m.relevance_score ≤ 1) ∧
    (∀ m, (lines.foldl parseMethodLine st).2 = some m →
       0 ≤ m.relevance_score ∧ m.relevance_score ≤ 1) := by
  induction lines with
  | nil => intro st h1 h2; exact ⟨h1, h2⟩
  | cons l ls ih =>
    intro st h1 h2
    have hmem : ∀ x ∈ ls, x ∈ l :: ls := fun x hx => List.mem_cons_of_mem l hx
    have hl := fun hC => h l (List.mem_cons_self l ls) hC
    rw [List.foldl_cons]
    refine ih (fun x hx hC n hn => h x (hmem x hx) hC n hn) _ ?_ ?_
    · -- emitted records of the stepped state stay in range
      by_cases hM : ("METHOD:".data).isPrefixOf (pyStrip l) = true
      · rw [parseMethodLine_method st l hM]
        intro m hm
        cases hcur : st.2 with
        | none => exact h1 m (by rw [hcur] at hm; exact hm)
        | some c =>
          rw [hcur] at hm
          rcases List.mem_append.mp hm with hm | hm
          · exact h1 m hm
          · rw [List.mem_singleton.mp hm]; exact h2 c hcur
      · by_cases hR : ("ROLE:".data).isPrefixOf (pyStrip l) = true
        · rw [parseMethodLine_role st l (Bool.not_eq_true _ ▸ hM) hR]
          cases hcur : st.2 with
          | none => simpa using h1
          | some c => simpa using h1
        · by_cases hC : ("CONFIDENCE:".data).isPrefixOf (pyStrip l) = true
          · rw [parseMethodLine_confidence st l hC]
            cases hcur : st.2 with
            | none => simpa using h1
            | some c => simpa using h1
          · rw [parseMethodLine_other st l (Bool.not_eq_true _ ▸ hM)
              (Bool.not_eq_true _ ▸ hR) (Bool.not_eq_true _ ▸ hC)]
            exact h1
    · -- the stepped current record stays in range
      by_cases hM : ("METHOD:".data).isPrefixOf (pyStrip l) = true
      · rw [parseMethodLine_method st l hM]
        intro m hm
        cases hcur : st.2 <;> rw [hcur] at hm <;>
          · cases hm; constructor <;> norm_num
      · by_cases hR : ("ROLE:".data).isPrefixOf (pyStrip l) = true
        · rw [parseMethodLine_role st l (Bool.not_eq_true _ ▸ hM) hR]
          cases hcur : st.2 with
          | none => intro m hm; exact h2 m hm
          | some c =>
            intro m hm
            cases hm
            exact h2 c hcur
        · by_cases hC : ("CONFIDENCE:".data).isPrefixOf (pyStrip l) = true
          · rw [parseMethodLine_confidence st l hC]
            cases hcur : st.2 with
            | none => intro m hm; exact h2 m hm
            | some c =>
              intro m hm
              cases hm
              simp only [confidenceScoreOf]
              cases hn : pyInt? (pyStrip ((pyStrip l).drop ("CONFIDENCE:".data).length)) with
              | none => constructor <;> norm_num
              | some n =>
                obtain ⟨hn0, hn100⟩ := hl hC n hn
                constructor
                · positivity
                · rw [div_le_one (by norm_num)]
                  exact_mod_cast hn100
          · rw [parseMethodLine_other st l (Bool.not_eq_true _ ▸ hM)
              (Bool.not_eq_true _ ▸ hR) (Bool.not_eq_true _ ▸ hC)]
            intro m hm; exact h2 m hm

/-- C8 (amended): every method finding's `relevance_score` lies within
`0.0–1.0` provided each `CONFIDENCE:` integer the response carries lies
within `0–100` (the initial `0.0` and the unparseable-default `0.5` are in
range); an arbitrary integer after `CONFIDENCE:` yields exactly
`confidence / 100`, which falls outside `0.0–1.0` for out-of-range
integers — see `C8_counterexample`. -/
theorem C8_scores_in_range (response : Str)
    (h : ∀ l ∈ pySplitChar '\n' response,
      ("CONFIDENCE:".data).isPrefixOf (pyStrip l) = true →
      ∀ n : ℤ, pyInt? (pyStrip ((pyStrip l).drop ("CONFIDENCE:".data).length)) = some n →
      0 ≤ n ∧ n ≤ 100) :
    ∀ m ∈ parseMethodAnalysisResponse response,
      0 ≤ m.relevance_score ∧ m.relevance_score ≤ 1 := by
  intro m hm
  obtain ⟨h1, h2⟩ := foldl_parseMethodLine_range (pySplitChar '\n' response) h ([], none)
    (fun x hx => absurd hx (List.not_mem_nil x))
    (fun x hx => absurd hx (by simp))
  simp only [parseMethodAnalysisResponse] at hm
  rw [(List.mergeSort_perm _ _).mem_iff] at hm
  rcases List.mem_append.mp hm with hm1 | hm2
  · exact h1 m hm1
  · cases hcur : ((pySplitChar '\n' response).foldl parseMethodLine ([], none)).2 with
    | none => rw [hcur] at hm2; cases hm2
    | some c =>
      rw [hcur] at hm2
      rw [List.mem_singleton.mp hm2]
      exact h2 c hcur

/-- Witness for `C8_scores_in_range`: the response `METHOD: a()V` /
`CONFIDENCE: 80` carries only the in-range integer 80, and its finding's
score `80/100` is within `0.0–1.0`. -/
theorem C8_scores_in_range_witness :
    0 ≤ (⟨"a()V".data, "a".data, ((80 : ℤ) : ℚ) / 100, [], []⟩ : PyMethod).relevance_score ∧
    (⟨"a()V".data, "a".data, ((80 : ℤ) : ℚ) / 100, [], []⟩ : PyMethod).relevance_score ≤ 1 := by
  refine C8_scores_in_range ("METHOD: a()V\nCONFIDENCE: 80".data) ?_ _ ?_
  · intro l hl hC n hn
    have hsplit : pySplitChar '\n' ("METHOD: a()V\nCONFIDENCE: 80".data) =
        ["METHOD: a()V".data, "CONFIDENCE: 80".data] := by decide
    rw [hsplit] at hl
    rcases List.mem_cons.mp hl with rfl | hl
    · exact absurd hC (by decide)
    · rcases List.mem_cons.mp hl with rfl | hl
      · have h80 : pyInt? (pyStrip ((pyStrip ("CONFIDENCE: 80".data)).drop
            ("CONFIDENCE:".data).length)) = some 80 := by decide
        rw [h80] at hn
        cases hn
        exact ⟨by decide, by decide⟩
      · exact absurd hl (List.not_mem_nil l)
  · simp +decide only [parseMethodAnalysisResponse, parseMethodLine, confidenceScoreOf,
      pySplitChar, pyStrip, pyIsSpace, extractMethodName, replaceAll,
      pySplitWs, splitWsAux, List.foldl, List.dropWhile, List.reverse, List.reverseAux,
      List.drop, List.isPrefixOf, List.getD, List.mergeSort_singleton, List.all,
      Option.map, List.getLast?, List.take, List.append, List.mem_singleton,
      if_true, if_false, List.nil_append, List.getLast_singleton,
      show pyInt? ['8', '0'] = some 80 from by decide]

/-! ## C3 — deduplication by class signature -/

/-- The derived signature of a stage-1 candidate pair. -/
def pairSignature (p : SDoc × ℚ) : Str := classSignatureOf p.1.class_name

/-- Everything the dedup loop keeps comes from the input and was not
already seen. -/
lemma mem_dedupe (l : List (SDoc × ℚ)) :
    ∀ seen x, x ∈ dedupeBySignature l seen → x ∈ l ∧ pairSignature x ∉ seen := by
  induction l with
  | nil => intro seen x hx; cases hx
  | cons hd tl ih =>
    intro seen x hx
    obtain ⟨d, s⟩ := hd
    by_cases hin : classSignatureOf d.class_name ∈ seen
    · rw [dedupeBySignature, if_pos hin] at hx
      obtain ⟨h1, h2⟩ := ih seen x hx
      exact ⟨List.mem_cons_of_mem _ h1, h2⟩
    · rw [dedupeBySignature, if_neg hin] at hx
      rcases List.mem_cons.mp hx with rfl | hx
      · exact ⟨List.mem_cons_self _ _, hin⟩
      · obtain ⟨h1, h2⟩ := ih _ x hx
        refine ⟨List.mem_cons_of_mem _ h1, fun hc => h2 (List.mem_cons_of_mem _ hc)⟩

/-- Each kept candidate is the first occurrence of its signature among the
input pairs whose signature was not yet seen. -/
lemma dedupe_first_occurrence (l : List (SDoc × ℚ)) :
    ∀ seen x, x ∈ dedupeBySignature l seen →
      l.find? (fun y => decide (pairSignature y = pairSignature x)) = some x := by
  induction l with
  | nil => intro seen x hx; cases hx
  | cons hd tl ih =>
    intro seen x hx
    obtain ⟨d, s⟩ := hd
    by_cases hin : classSignatureOf d.class_name ∈ seen
    · rw [dedupeBySignature, if_pos hin] at hx
      have hne : pairSignature (d, s) ≠ pairSignature x := by
        intro hEq
        exact (mem_dedupe tl seen x hx).2 (hEq ▸ hin)
      rw [List.find?_cons_of_neg _ (by simpa using hne)]
      exact ih seen x hx
    · rw [dedupeBySignature, if_neg hin] at hx
      rcases List.mem_cons.mp hx with rfl | hx
      · rw [List.find?_cons_of_pos _ (by simp)]
      · have hne : pairSignature (d, s) ≠ pairSignature x := by
          intro hEq
          exact (mem_dedupe tl _ x hx).2 (hEq ▸ List.mem_cons_self _ _)
        rw [List.find?_cons_of_neg _ (by simpa using hne)]
        exact ih _ x hx

/-- The kept candidates have pairwise-distinct signatures. -/
lemma dedupe_sigs_nodup (l : List (SDoc × ℚ)) :
    ∀ seen, ((dedupeBySignature l seen).map pairSignature).Nodup := by
  induction l with
  | nil => intro seen; simp [dedupeBySignature]
  | cons hd tl ih =>
    intro seen
    obtain ⟨d, s⟩ := hd
    by_cases hin : classSignatureOf d.class_name ∈ seen
    · rw [dedupeBySignature, if_pos hin]; exact ih seen
    · rw [dedupeBySignature, if_neg hin]
      rw [List.map_cons, List.nodup_cons]
      refine ⟨fun hc => ?_, ih _⟩
      obtain ⟨x, hx, hsx⟩ := List.mem_map.mp hc
      exact (mem_dedupe tl _ x hx).2 (hsx ▸ List.mem_cons_self _ _)

/-- Every input signature is represented among the kept candidates (or was
already seen). -/
lemma dedupe_covers (l : List (SDoc × ℚ)) :
    ∀ seen y, y ∈ l → pairSignature y ∈ seen ∨
      ∃ x ∈ dedupeBySignature l seen, pairSignature x = pairSignature y := by
  induction l with
  | nil => intro seen y hy; cases hy
  | cons hd tl ih =>
    intro seen y hy
    obtain ⟨d, s⟩ := hd
    by_cases hin : classSignatureOf d.class_name ∈ seen
    · rw [dedupeBySignature, if_pos hin]
      rcases List.mem_cons.mp hy with rfl | hy
      · exact Or.inl hin
      · exact ih seen y hy
    · rw [dedupeBySignature, if_neg hin]
      rcases List.mem_cons.mp hy with rfl | hy
      · exact Or.inr ⟨(d, s), List.mem_cons_self _ _, rfl⟩
      · rcases ih _ y hy with hseen | ⟨x, hx, hsx⟩
        · rcases List.mem_cons.mp hseen with hEq | hseen
          · exact Or.inr ⟨(d, s), List.mem_cons_self _ _, hEq.symm⟩
          · exact Or.inl hseen
        · exact Or.inr ⟨x, List.mem_cons_of_mem _ hx, hsx⟩

/-- C3: the deduplicated candidate set has pairwise-distinct class
signatures; each kept candidate is the first occurrence of its signature in
the stage-1 ranked order (carrying that occurrence's vector score, since
`find?` returns the whole `(doc, score)` pair); and every stage-1
signature is still represented. -/
theorem C3_dedupe_first_seen (l : List (SDoc × ℚ)) :
    ((dedupeBySignature l []).map pairSignature).Nodup ∧
    (∀ x ∈ dedupeBySignature l [],
      l.find? (fun y => decide (pairSignature y = pairSignature x)) = some x) ∧
    (∀ y ∈ l, ∃ x ∈ dedupeBySignature l [], pairSignature x = pairSignature y) :=
  ⟨dedupe_sigs_nodup l [],
   fun x hx => dedupe_first_occurrence l [] x hx,
   fun y hy => (dedupe_covers l [] y hy).resolve_left (by simp)⟩

/-- Witness for `C3_dedupe_first_seen` on a list with a duplicated
signature: the first occurrence `(d₁, 1)` is retained — with its score —
and the duplicate `(d₁, 3)` is still represented. -/
theorem C3_dedupe_first_seen_witness :
    ([(⟨"com/a".data, []⟩, (1 : ℚ)), (⟨"com/b".data, []⟩, 2),
      (⟨"com/a".data, []⟩, 3)].find?
        (fun y => decide (pairSignature y = pairSignature (⟨"com/a".data, []⟩, 1))) =
      some (⟨"com/a".data, []⟩, 1)) ∧
    (∃ x ∈ dedupeBySignature [(⟨"com/a".data, []⟩, (1 : ℚ)), (⟨"com/b".data, []⟩, 2),
        (⟨"com/a".data, []⟩, 3)] [],
      pairSignature x = pairSignature (⟨"com/a".data, []⟩, 3)) :=
  ⟨(C3_dedupe_first_seen _).2.1 (⟨"com/a".data, []⟩, 1) (by decide),
   (C3_dedupe_first_seen _).2.2 (⟨"com/a".data, []⟩, 3) (by decide)⟩

/-! ## C1/C2 — threshold filter, ranking and truncation -/

/-- Everything the re-ranking loop keeps scored at or above the threshold. -/
lemma buildReRanked_threshold :
    ∀ pairs r, r ∈ (buildReRanked pairs).1 →
      relevance_threshold ≤ r.llm_relevance_score := by
  intro pairs
  induction pairs with
  | nil => intro r hr; cases hr
  | cons hd tl ih =>
    intro r hr
    obtain ⟨⟨d, score⟩, res⟩ := hd
    cases res with
    | error e =>
      rw [buildReRanked] at hr
      exact ih r hr
    | ok v =>
      obtain ⟨rs, ex⟩ := v
      rw [buildReRanked] at hr
      by_cases hth : relevance_threshold ≤ rs
      · rw [if_pos hth] at hr
        rcases List.mem_cons.mp hr with rfl | hr
        · exact hth
        · exact ih r hr
      · rw [if_neg hth] at hr
        exact ih r hr

/-- Everything the re-ranking loop keeps is built from some zip entry whose
relevance result is the kept score and explanation. -/
lemma buildReRanked_source :
    ∀ pairs r, r ∈ (buildReRanked pairs).1 →
      ∃ p ∈ pairs, r.class_signature = classSignatureOf p.1.1.class_name ∧
        p.2 = Except.ok (r.llm_relevance_score, r.explanation) := by
  intro pairs
  induction pairs with
  | nil => intro r hr; cases hr
  | cons hd tl ih =>
    intro r hr
    obtain ⟨⟨d, score⟩, res⟩ := hd
    cases res with
    | error e =>
      rw [buildReRanked] at hr
      obtain ⟨p, hp, h1, h2⟩ := ih r hr
      exact ⟨p, List.mem_cons_of_mem _ hp, h1, h2⟩
    | ok v =>
      obtain ⟨rs, ex⟩ := v
      rw [buildReRanked] at hr
      by_cases hth : relevance_threshold ≤ rs
      · rw [if_pos hth] at hr
        rcases List.mem_cons.mp hr with rfl | hr
        · exact ⟨((d, score), Except.ok (rs, ex)), List.mem_cons_self _ _, rfl, rfl⟩
        · obtain ⟨p, hp, h1, h2⟩ := ih r hr
          exact ⟨p, List.mem_cons_of_mem _ hp, h1, h2⟩
      · rw [if_neg hth] at hr
        obtain ⟨p, hp, h1, h2⟩ := ih r hr
        exact ⟨p, List.mem_cons_of_mem _ hp, h1, h2⟩

/-- The comparison handed to the stable sort. -/
def rankedLe (a b : RankedResult) : Bool :=
  decide (b.llm_relevance_score ≤ a.llm_relevance_score)

lemma rankedLe_trans : ∀ a b c, rankedLe a b = true → rankedLe b c = true →
    rankedLe a c = true := by
  intro a b c hab hbc
  simp only [rankedLe, decide_eq_true_eq] at hab hbc ⊢
  exact le_trans hbc hab

lemma rankedLe_total : ∀ a b, (rankedLe a b || rankedLe b a) = true := by
  intro a b
  simp only [rankedLe, Bool.or_eq_true, decide_eq_true_eq]
  exact le_total b.llm_relevance_score a.llm_relevance_score

/-- C1: every candidate in a behavior's final list scored at or above the
configured relevance threshold — a below-threshold candidate never appears,
regardless of its vector score. -/
theorem C1_final_candidates_above_threshold (docsAndScores : List (SDoc × ℚ))
    (llmOutcomes : List (Except Str Str)) :
    ∀ r ∈ retrieveClassesForBehavior docsAndScores llmOutcomes,
      relevance_threshold ≤ r.llm_relevance_score := by
  intro r hr
  have hr2 : r ∈ (keptCandidates docsAndScores llmOutcomes).mergeSort rankedLe := by
    have := List.mem_of_mem_take hr
    exact this
  rw [(List.mergeSort_perm _ _).mem_iff] at hr2
  exact buildReRanked_threshold _ r hr2

/-- C2: a behavior's final candidate list has length at most `top_k_classes`,
is sorted descending by `llm_relevance_score`, and within each score class
the final list is a prefix of the pre-sort (threshold-filtered) list — the
stable sort keeps equal scores in their input order. -/
theorem C2_final_list_sorted_topk (docsAndScores : List (SDoc × ℚ))
    (llmOutcomes : List (Except Str Str)) :
    (retrieveClassesForBehavior docsAndScores llmOutcomes).length ≤ top_k_classes ∧
    (retrieveClassesForBehavior docsAndScores llmOutcomes).Pairwise
      (fun a b => b.llm_relevance_score ≤ a.llm_relevance_score) ∧
    ∀ q : ℚ,
      (retrieveClassesForBehavior docsAndScores llmOutcomes).filter
          (fun r => decide (r.llm_relevance_score = q)) <+:
        (keptCandidates docsAndScores llmOutcomes).filter
          (fun r => decide (r.llm_relevance_score = q)) := by
  refine ⟨List.length_take_le _ _, ?_, ?_⟩
  · have hs := List.sorted_mergeSort rankedLe_trans rankedLe_total
      (keptCandidates docsAndScores llmOutcomes)
    have hp : ((keptCandidates docsAndScores llmOutcomes).mergeSort rankedLe).Pairwise
        (fun a b => b.llm_relevance_score ≤ a.llm_relevance_score) :=
      hs.imp (fun h => by simpa [rankedLe, decide_eq_true_eq] using h)
    exact hp.sublist (List.take_sublist _ _)
  · intro q
    set kept := keptCandidates docsAndScores llmOutcomes with hkept
    set p := fun r : RankedResult => decide (r.llm_relevance_score = q) with hp
    have hcsub : List.Sublist (kept.filter p) kept := List.filter_sublist _
    have hcall : ∀ a ∈ kept.filter p, ∀ b ∈ kept.filter p, rankedLe a b = true := by
      intro a ha b hb
      have ha2 : a.llm_relevance_score = q := by
        have := List.of_mem_filter ha
        simpa [hp] using this
      have hb2 : b.llm_relevance_score = q := by
        have := List.of_mem_filter hb
        simpa [hp] using this
      simp [rankedLe, ha2, hb2]
    have hcpw : (kept.filter p).Pairwise (fun a b => rankedLe a b = true) :=
      List.pairwise_of_forall_mem_list hcall
    have hsub : List.Sublist (kept.filter p) (kept.mergeSort rankedLe) :=
      List.sublist_mergeSort rankedLe_trans rankedLe_total hcpw hcsub
    have hsub2 : List.Sublist ((kept.filter p).filter p)
        ((kept.mergeSort rankedLe).filter p) :=
      hsub.filter p
    rw [List.filter_filter] at hsub2
    have hff : kept.filter (fun a => p a && p a) = kept.filter p := by
      apply List.filter_congr
      intro a _
      cases p a <;> rfl
    rw [hff] at hsub2
    have hperm : List.Perm ((kept.mergeSort rankedLe).filter p) (kept.filter p) :=
      (List.mergeSort_perm kept rankedLe).filter p
    have heq : (kept.mergeSort rankedLe).filter p = kept.filter p :=
      (hsub2.eq_of_length hperm.length_eq.symm).symm
    have hpre : retrieveClassesForBehavior docsAndScores llmOutcomes <+:
        kept.mergeSort rankedLe := List.take_prefix _ _
    have := hpre.filter p
    rw [heq] at this
    exact this

/-- Witness for `C1_final_candidates_above_threshold`: one candidate whose
assessment response is `Score: 1` survives with score `1 ≥ 0.85`. -/
theorem C1_final_candidates_above_threshold_witness :
    relevance_threshold ≤
      ({ class_name := "com/a".data, class_signature := classSignatureOf ("com/a".data),
         vector_similarity_score := 1, llm_relevance_score := ((1 : ℕ) : ℚ),
         explanation := "No explanation available.".data,
         metadata := ⟨"com/a".data, []⟩ } : RankedResult).llm_relevance_score :=
  C1_final_candidates_above_threshold [(⟨"com/a".data, []⟩, 1)]
    [Except.ok ("Score: 1".data)] _ (by
      simp +decide only [retrieveClassesForBehavior, keptCandidates, relevanceResultsOf,
        buildReRanked, assessClassRelevance, parseAssessResult, assessLineStep,
        dedupeBySignature, classSignatureOf, pySplitChar, pyStrip,
        pyIsSpace, List.foldl, List.dropWhile, List.reverse, List.reverseAux, List.drop,
        List.isPrefixOf, List.getD, List.zip, List.zipWith, List.map, List.filter,
        List.mergeSort_singleton, List.take, List.mem_singleton, if_true, if_false,
        List.nil_append,
        show pyFloat? ['1'] = some ((1 : ℕ) : ℚ) from rfl,
        show relevance_threshold ≤ ((1 : ℕ) : ℚ) from by
          norm_num [relevance_threshold]])

/-! ## C4 — a failed relevance assessment drops the candidate and is logged -/

/-- C4: when the relevance-assessment call for the `i`-th deduplicated
candidate fails outright (the oracle entry is `.error e`, i.e. the
text-generation capability raised after its own retries), that candidate
never appears in the behavior's results — the `except` clause scores it
`0.0`, which is below the `0.85` threshold — and the failure is logged.
No exception propagates: `retrieveClassesForBehavior` is total. -/
theorem C4_failed_assessment_excluded_and_logged (docsAndScores : List (SDoc × ℚ))
    (llmOutcomes : List (Except Str Str)) (i : ℕ) (e : Str)
    (hi : i < (dedupeBySignature docsAndScores []).length)
    (hil : i < llmOutcomes.length)
    (he : llmOutcomes.get ⟨i, hil⟩ = Except.error e) :
    ((retrieveClassesForBehavior docsAndScores llmOutcomes).all (fun r =>
      !(r.class_signature ==
        classSignatureOf (((dedupeBySignature docsAndScores []).get ⟨i, hi⟩).1.class_name)))) =
      true ∧
    ("Error assessing class relevance: ".data ++ e) ∈
      retrieveLogs docsAndScores llmOutcomes := by
  constructor
  · rw [List.all_eq_true]
    intro r hr
    rw [Bool.not_eq_eq_eq_not, Bool.not_true, beq_eq_false_iff_ne]
    intro hsig
    -- `r` came from some zip entry `p`; identify its index with `i`.
    have hr2 : r ∈ keptCandidates docsAndScores llmOutcomes := by
      have h3 : r ∈ (keptCandidates docsAndScores llmOutcomes).mergeSort rankedLe :=
        List.mem_of_mem_take hr
      rwa [(List.mergeSort_perm _ _).mem_iff] at h3
    have hth := buildReRanked_threshold _ r hr2
    obtain ⟨p, hp, hpsig, hpres⟩ := buildReRanked_source _ r hr2
    obtain ⟨j, hj, hpj⟩ := List.mem_iff_getElem.mp hp
    have hjlen : j < (dedupeBySignature docsAndScores []).length ∧
        j < (relevanceResultsOf docsAndScores llmOutcomes).length := by
      rw [List.length_zip] at hj
      omega
    rw [List.getElem_zip] at hpj
    -- the two signatures agree, and the dedup signatures are distinct
    have hp1 : ((dedupeBySignature docsAndScores [])[j]) = p.1 := by
      rw [← hpj]
    have hjm : j < ((dedupeBySignature docsAndScores []).map pairSignature).length := by
      simpa using hjlen.1
    have him : i < ((dedupeBySignature docsAndScores []).map pairSignature).length := by
      simpa using hi
    have hji : j = i := by
      have hnd := dedupe_sigs_nodup docsAndScores []
      have heq2 : ((dedupeBySignature docsAndScores []).map pairSignature)[j] =
          ((dedupeBySignature docsAndScores []).map pairSignature)[i] := by
        rw [List.getElem_map, List.getElem_map]
        simp only [pairSignature]
        rw [hp1, ← hpsig, hsig]
        simp [List.get_eq_getElem]
      exact (List.Nodup.getElem_inj_iff hnd).mp heq2
    -- the `i`-th relevance result is the caught failure, scored 0
    have hres : (relevanceResultsOf docsAndScores llmOutcomes)[j] =
        Except.ok ((0 : ℚ), "Error in assessment. Vector similarity score: ".data) := by
      subst hji
      have hzlen : j < ((dedupeBySignature docsAndScores []).zip llmOutcomes).length := by
        rw [List.length_zip]
        omega
      simp only [relevanceResultsOf, List.getElem_map, List.getElem_zip]
      have : llmOutcomes[j] = Except.error e := by
        simpa using he
      rw [this]
      rfl
    rw [← hpj] at hpres
    rw [hres] at hpres
    have h0 : r.llm_relevance_score = 0 := by
      have := (Except.ok.inj hpres)
      exact (Prod.mk.injEq _ _ _ _ ▸ this).1.symm
    rw [h0] at hth
    have : ¬ (relevance_threshold ≤ (0 : ℚ)) := by norm_num [relevance_threshold]
    exact this hth
  · apply List.mem_append_left
    apply List.mem_filterMap.mpr
    have hzlen : i < ((dedupeBySignature docsAndScores []).zip llmOutcomes).length := by
      rw [List.length_zip]
      omega
    refine ⟨((dedupeBySignature docsAndScores []).zip llmOutcomes).get ⟨i, hzlen⟩,
      List.get_mem _ _ _, ?_⟩
    have : (((dedupeBySignature docsAndScores []).zip llmOutcomes).get ⟨i, hzlen⟩).2 =
        Except.error e := by
      simp only [List.get_eq_getElem, List.getElem_zip]
      simpa using he
    rw [this]
    rfl

/-- Witness for `C4_failed_assessment_excluded_and_logged`: a single
candidate whose assessment call fails is excluded and its failure logged. -/
theorem C4_failed_assessment_excluded_and_logged_witness :
    ((retrieveClassesForBehavior [(⟨"com/a".data, []⟩, 1)]
        [Except.error ("rate limited".data)]).all (fun r =>
      !(r.class_signature ==
        classSignatureOf (((dedupeBySignature [(⟨"com/a".data, []⟩, (1 : ℚ))] []).get
          ⟨0, by decide⟩).1.class_name)))) = true ∧
    ("Error assessing class relevance: ".data ++ "rate limited".data) ∈
      retrieveLogs [(⟨"com/a".data, []⟩, 1)] [Except.error ("rate limited".data)] :=
  C4_failed_assessment_excluded_and_logged [(⟨"com/a".data, []⟩, 1)]
    [Except.error ("rate limited".data)] 0 ("rate limited".data)
    (by decide) (by decide) rfl

/-! ## C5/C10 — orchestration: per-behavior isolation and report totals -/

lemma filter_filterMap_eq {α β : Type} (p : α → Bool) (g : α → Option β) :
    ∀ l : List α, (l.filter p).filterMap g =
      l.filterMap (fun a => if p a then g a else none) := by
  intro l
  induction l with
  | nil => rfl
  | cons a l ih =>
    by_cases hpa : p a = true
    · rw [List.filter_cons_of_pos hpa, List.filterMap_cons, List.filterMap_cons,
        if_pos hpa, ih]
    · rw [List.filter_cons_of_neg hpa, List.filterMap_cons,
        if_neg hpa, ih]

lemma filterMap_filter_ne {α β : Type} [DecidableEq α] (b : α) (g : α → Option β)
    (hg : g b = none) :
    ∀ l : List α, (l.filter (fun x => decide ¬ x = b)).filterMap g = l.filterMap g := by
  intro l
  induction l with
  | nil => rfl
  | cons a l ih =>
    by_cases hab : a = b
    · subst hab
      rw [List.filter_cons_of_neg (by simp), List.filterMap_cons, hg, ih]
    · rw [List.filter_cons_of_pos (by simpa using hab), List.filterMap_cons,
        List.filterMap_cons, ih]

/-- The id carried by `_analyze_methods`' result is the requested id. -/
lemma analyzeMethodsForBehavior_id (b : ℕ) (crs : List RankedResult)
    (mo : RankedResult → Except Str Str) :
    (analyzeMethodsForBehavior b crs mo).1.behavior_id = b := by
  unfold analyzeMethodsForBehavior
  by_cases h : crs = []
  · rw [if_pos h]
  · rw [if_neg h]

/-- C5: if the stage-1 retrieval call for one requested behavior raises,
that behavior is removed from the final report — the report equals the one
produced had it never been requested — and no behavior entry with its id
appears; every other requested behavior is unaffected. -/
theorem C5_failed_stage1_isolated (app : Str) (ids : List ℕ)
    (stage1 : ℕ → Except Str (List RankedResult))
    (mo : ℕ → RankedResult → Except Str Str) (b : ℕ) (e : Str)
    (hb : stage1 b = Except.error e) :
    analyzeBehaviors app ids stage1 mo =
      analyzeBehaviors app (ids.filter (fun x => decide ¬ x = b)) stage1 mo ∧
    ((analyzeBehaviors app ids stage1 mo).behaviors.all
      (fun fb => !(fb.behavior_id == b))) = true := by
  have hg' : (fun a => if (behaviorDescription? a).isSome then
      (match stage1 a with
       | Except.ok classResults => some (a, classResults)
       | Except.error _ => none) else none) b = none := by
    simp [hb]
  constructor
  · simp only [analyzeBehaviors]
    rw [filter_filterMap_eq, filter_filterMap_eq, filterMap_filter_ne b _ hg']
  · rw [List.all_eq_true]
    intro fb hfb
    simp only [analyzeBehaviors] at hfb
    rw [filter_filterMap_eq] at hfb
    simp only [generateBehaviorReport, List.mem_map] at hfb
    obtain ⟨br, hbr, rfl⟩ := hfb
    obtain ⟨p, hp, rfl⟩ := hbr
    obtain ⟨x, _, hgx⟩ := List.mem_filterMap.mp hp
    have hpx : p.1 = x ∧ ¬ x = b := by
      by_cases hxid : (behaviorDescription? x).isSome = true
      · rw [if_pos hxid] at hgx
        cases hsx : stage1 x with
        | ok cr =>
          rw [hsx] at hgx
          cases hgx
          refine ⟨rfl, fun hxb => ?_⟩
          rw [hxb, hb] at hsx
          cases hsx
        | error er => rw [hsx] at hgx; cases hgx
      · rw [if_neg hxid] at hgx; cases hgx
    simp only [formatBehaviorResult, analyzeMethodsForBehavior_id]
    rw [Bool.not_eq_eq_eq_not, Bool.not_true, beq_eq_false_iff_ne]
    rw [hpx.1]
    exact hpx.2

/-- Witness for `C5_failed_stage1_isolated`: behavior 2's stage-1 call
fails among requests `[1, 2, 3]`. -/
theorem C5_failed_stage1_isolated_witness :
    (analyzeBehaviors ("app".data) [1, 2, 3]
        (fun x => if x = 2 then Except.error ("boom".data) else Except.ok [])
        (fun _ _ => Except.ok []) =
      analyzeBehaviors ("app".data) ([1, 2, 3].filter (fun x => decide ¬ x = 2))
        (fun x => if x = 2 then Except.error ("boom".data) else Except.ok [])
        (fun _ _ => Except.ok [])) ∧
    ((analyzeBehaviors ("app".data) [1, 2, 3]
        (fun x => if x = 2 then Except.error ("boom".data) else Except.ok [])
        (fun _ _ => Except.ok [])).behaviors.all
      (fun fb => !(fb.behavior_id == 2))) = true :=
  C5_failed_stage1_isolated ("app".data) [1, 2, 3]
    (fun x => if x = 2 then Except.error ("boom".data) else Except.ok [])
    (fun _ _ => Except.ok []) 2 ("boom".data) rfl

lemma length_filterMap_eq_length_filter {α β : Type} (g : α → Option β) :
    ∀ l : List α, (l.filterMap g).length = (l.filter (fun a => (g a).isSome)).length := by
  intro l
  induction l with
  | nil => rfl
  | cons a l ih =>
    cases hg : g a with
    | none =>
      rw [List.filterMap_cons, hg, List.filter_cons_of_neg (by simp [hg])]
      exact ih
    | some v =>
      rw [List.filterMap_cons, hg, List.filter_cons_of_pos (by simp [hg])]
      simpa using ih

/-- C10: the report's `total_behaviors_analyzed` equals the number of
behavior entries actually present in the report, which is the number of
requested ids that are both known and whose stage-1 retrieval succeeded;
at a concrete input with an unknown id this is strictly less than the
number of requested behaviors. -/
theorem C10_total_counts_present_behaviors (app : Str) (ids : List ℕ)
    (stage1 : ℕ → Except Str (List RankedResult))
    (mo : ℕ → RankedResult → Except Str Str) :
    (analyzeBehaviors app ids stage1 mo).total_behaviors_analyzed =
      (analyzeBehaviors app ids stage1 mo).behaviors.length ∧
    (analyzeBehaviors app ids stage1 mo).total_behaviors_analyzed =
      (ids.filter (fun x => (behaviorDescription? x).isSome &&
        (stage1 x).toOption.isSome)).length ∧
    (analyzeBehaviors ("x".data) [1, 99] (fun _ => Except.ok [])
        (fun _ _ => Except.ok [])).total_behaviors_analyzed <
      ([1, 99] : List ℕ).length := by
  refine ⟨?_, ?_, by decide⟩
  · simp only [analyzeBehaviors]
    simp [generateBehaviorReport]
  · simp only [analyzeBehaviors]
    simp only [generateBehaviorReport, List.length_map]
    rw [length_filterMap_eq_length_filter, List.filter_filter]
    apply congrArg
    apply List.filter_congr
    intro x _
    cases hk : (behaviorDescription? x).isSome <;>
      cases hs : stage1 x <;> simp [hs, Except.toOption]

end RAML
